import Mathlib

/-!
Shallow embedding of the workspace/clipboard/keyboard layer of
`src/blockly/core/blockly.js` and of the `controls_if` block definition of
`src/unnamed/part_000` (a Blockly fork).

JavaScript values are modelled as follows: nullable object references become
`Option`, JS numbers that can be `NaN` become `Option Nat` (with `none` for
`NaN`), DOM side effects (hideChaff, paste, dispose, ...) are recorded in an
explicit action trace, and the module-level mutable variables
(`Blockly.selected`, `Blockly.clipboardXml_`, `Blockly.clipboardSource_`,
`Blockly.dragMode_`, `Blockly.highlightedConnection_`) become fields of an
explicit `BlocklyState`.
-/

namespace Mixly

/-- Drag mode of the workspace: `Blockly.DRAG_NONE`, `Blockly.DRAG_STICKY`,
`Blockly.DRAG_FREE`. -/
inductive DragMode where
  | dragNone
  | dragSticky
  | dragFree
  deriving DecidableEq

/-- Model of the XML element produced by `Blockly.Xml.blockToDom`: an opaque
payload `base`, a list of attributes with integer values (the only attributes
the excerpted code writes are the numeric `x` and `y`), and a flag recording
whether the trailing `next` chain is still present. -/
structure XmlDom where
  base : Nat
  attrs : List (String × Int)
  hasNext : Bool
  deriving DecidableEq

/-- `Blockly.Xml.deleteNext`: removes the trailing `next` chain. -/
def XmlDom.deleteNext (x : XmlDom) : XmlDom :=
  { x with hasNext := false }

/-- `Element.setAttribute`: replaces or adds the attribute. -/
def XmlDom.setAttribute (x : XmlDom) (k : String) (v : Int) : XmlDom :=
  { x with attrs := (x.attrs.filter (fun p => p.1 ≠ k)) ++ [(k, v)] }

/-- `Element.getAttribute`, returning `none` when the attribute is absent. -/
def XmlDom.getAttribute (x : XmlDom) (k : String) : Option Int :=
  (x.attrs.find? (fun p => p.1 = k)).map (fun p => p.2)

/-- Model of a `Blockly.BlockSvg` as seen by the clipboard/keyboard layer:
its flags, its position on the drawing surface (`getRelativeToSurfaceXY`),
the workspace it lives in, and its DOM serialization (`blockToDom`). -/
structure Block where
  id : Nat
  deletable : Bool
  movable : Bool
  rtl : Bool
  x : Int
  y : Int
  wsId : Nat
  domBase : Nat
  domAttrs : List (String × Int)
  domHasNext : Bool
  deriving DecidableEq

/-- `Blockly.Xml.blockToDom` on the model block. -/
def blockToDom (b : Block) : XmlDom :=
  ⟨b.domBase, b.domAttrs, b.domHasNext⟩

/-- The module-level mutable state of `blockly.js` used by the keyboard and
clipboard code, together with the `readOnly` option of the main workspace. -/
structure BlocklyState where
  readOnly : Bool
  selected : Option Block
  clipboardXml : Option XmlDom
  clipboardSource : Option Nat
  dragMode : DragMode
  highlightedConnection : Option Nat
  deriving DecidableEq

/-- External side effects performed by the keyboard/clipboard layer, recorded
as a trace. `paste src xml` is a call `src.paste(xml)` with the arguments as
the state holds them; `dispose b heal animate` is `b.dispose(heal, animate)`. -/
inductive Action where
  | hideChaff
  | preventDefault
  | setGroup (b : Bool)
  | paste (wsId : Option Nat) (xml : Option XmlDom)
  | undo (redo : Bool)
  | dispose (b : Option Block) (heal : Bool) (animate : Bool)
  | unhighlight (c : Nat)
  | saveClipCache (xml : XmlDom)
  | pasteFromCache
  deriving DecidableEq

/-- `Blockly.copy_`: serialize the block, delete the `next` chain unless the
drag mode is `DRAG_FREE`, write the `x`/`y` attributes (negating `x` for RTL),
and store the result and the block's workspace on the local clipboard. -/
def copy_ (st : BlocklyState) (block : Block) : BlocklyState :=
  let xmlBlock := blockToDom block
  let xmlBlock := if st.dragMode ≠ DragMode.dragFree then xmlBlock.deleteNext else xmlBlock
  let xmlBlock := xmlBlock.setAttribute "x" (if block.rtl then -block.x else block.x)
  let xmlBlock := xmlBlock.setAttribute "y" block.y
  { st with clipboardXml := some xmlBlock, clipboardSource := some block.wsId }

/-- A keyboard event as `Blockly.onKeyDown_` inspects it (`keyCode`, modifier
flags, and whether the event target is an HTML text input). -/
structure KeyEvent where
  keyCode : Nat
  altKey : Bool
  ctrlKey : Bool
  metaKey : Bool
  shiftKey : Bool
  targetIsInput : Bool
  deriving DecidableEq

/-- `Blockly.onKeyDown_`: the key handler of the SVG surface. Returns the new
state and the trace of external effects, in order. -/
def onKeyDown_ (st : BlocklyState) (e : KeyEvent) : BlocklyState × List Action :=
  if st.readOnly || e.targetIsInput then (st, [])
  else
    let r : BlocklyState × List Action × Bool :=
      if e.keyCode = 27 then (st, [Action.hideChaff], false)
      else if e.keyCode = 8 ∨ e.keyCode = 46 then
        (st, [Action.preventDefault],
          match st.selected with
          | some b => b.deletable
          | none => false)
      else if (e.altKey || e.ctrlKey || e.metaKey) && !e.shiftKey then
        let ra : BlocklyState × List Action × Bool :=
          match st.selected with
          | some b =>
            if b.deletable && b.movable then
              if e.keyCode = 67 then (copy_ st b, [Action.hideChaff], false)
              else if e.keyCode = 88 then (copy_ st b, [], true)
              else (st, [], false)
            else (st, [], false)
          | none => (st, [], false)
        let rb : List Action :=
          if e.keyCode = 86 then
            match ra.1.clipboardXml with
            | some _ =>
              [Action.setGroup true, Action.paste ra.1.clipboardSource ra.1.clipboardXml,
               Action.setGroup false]
            | none => []
          else if e.keyCode = 90 then [Action.hideChaff, Action.undo e.shiftKey]
          else if e.keyCode = 89 then [Action.hideChaff, Action.undo true]
          else []
        (ra.1, ra.2.1 ++ rb, ra.2.2)
      else if e.shiftKey && e.ctrlKey then
        let acta : List Action :=
          match st.selected with
          | some b =>
            if b.deletable && b.movable && e.keyCode = 67 then
              [Action.saveClipCache (blockToDom b)]
            else []
          | none => []
        let actb : List Action := if e.keyCode = 86 then [Action.pasteFromCache] else []
        (st, acta ++ actb, false)
      else (st, [], false)
    if r.2.2 then
      let heal := r.1.dragMode ≠ DragMode.dragFree
      let hl : BlocklyState × List Action :=
        match r.1.highlightedConnection with
        | some c => ({ r.1 with highlightedConnection := none }, [Action.unhighlight c])
        | none => (r.1, [])
      (hl.1,
        r.2.1 ++ [Action.setGroup true, Action.hideChaff, Action.dispose r.1.selected heal true]
          ++ hl.2 ++ [Action.setGroup false])
    else (r.1, r.2.1)

/-- `Blockly.duplicate_`: save the clipboard, copy the block, paste the fresh
clipboard content into the block's own workspace, restore the clipboard. -/
def duplicate_ (st : BlocklyState) (block : Block) : BlocklyState × List Action :=
  let clipboardXml := st.clipboardXml
  let clipboardSource := st.clipboardSource
  let st1 := copy_ st block
  ({ st1 with clipboardXml := clipboardXml, clipboardSource := clipboardSource },
   [Action.paste (some block.wsId) st1.clipboardXml])

/-!
Model of the `controls_if` block of `src/unnamed/part_000`.

The counters `elseifCount_` and `elseCount_` are JS numbers that
`domToMutation` can set to `NaN` (via `parseInt` of an absent attribute), so
they are modelled as `Option Nat` with `none` for `NaN`. The block's input
list only records the input names, as an inductive type mirroring the strings
the code builds (`'IF' + i`, `'DO' + i`, `'ELSE'`).
-/

/-- JS truthiness of a number that may be `NaN`: `0` and `NaN` are falsy. -/
def truthy : Option Nat → Bool
  | some 0 => false
  | some (_ + 1) => true
  | none => false

/-- JS `x++` on a number that may be `NaN` (`NaN + 1 = NaN`). -/
def jsInc : Option Nat → Option Nat
  | some n => some (n + 1)
  | none => none

/-- Input names the `controls_if` code builds: `'IF' + i`, `'DO' + i`,
`'ELSE'`. -/
inductive InputName where
  | ifN (i : Nat)
  | doN (i : Nat)
  | elseInput
  deriving DecidableEq

/-- The `controls_if` block state relevant to its mutation methods. -/
structure IfBlock where
  elseifCount : Option Nat
  elseCount : Option Nat
  inputs : List InputName
  deriving DecidableEq

/-- The inputs `init` gives a fresh `controls_if` block (`IF0`, `DO0`),
with both counters zero. -/
def IfBlock.fresh : IfBlock :=
  ⟨some 0, some 0, [InputName.ifN 0, InputName.doN 0]⟩

/-- The `mutation` XML element: its attributes carry natural numbers
(`elseif`, `else`). -/
structure MutationElem where
  attrs : List (String × Nat)
  deriving DecidableEq

/-- `parseInt(elem.getAttribute(k), 10)`: an absent attribute is `null`,
which `parseInt` turns into `NaN` (`none`); a present numeric attribute
parses back to its value. -/
def parseIntAttr (m : MutationElem) (k : String) : Option Nat :=
  (m.attrs.find? (fun p => p.1 = k)).map (fun p => p.2)

/-- `mutationToDom` of `controls_if`: `null` when both counters are falsy,
otherwise a `mutation` element with attribute `elseif` (the count) when
`elseifCount_` is truthy and attribute `else` set to `1` when `elseCount_`
is truthy. -/
def mutationToDom (b : IfBlock) : Option MutationElem :=
  if !truthy b.elseifCount && !truthy b.elseCount then none
  else
    some ⟨(if truthy b.elseifCount then [("elseif", b.elseifCount.getD 0)] else [])
      ++ (if truthy b.elseCount then [("else", 1)] else [])⟩

/-- The inputs appended by the loop `for (i = 1; i <= n; i++)`:
`IF1, DO1, ..., IFn, DOn`. -/
def appendPairs : Nat → List InputName
  | 0 => []
  | n + 1 => appendPairs n ++ [InputName.ifN (n + 1), InputName.doN (n + 1)]

/-- The inputs appended by `compose` for elseif clauses `c + 1 .. c + n`
(a generalisation of `appendPairs` used to reason about `composeLoop`). -/
def appendPairsFrom (c : Nat) : Nat → List InputName
  | 0 => []
  | n + 1 =>
    [InputName.ifN (c + 1), InputName.doN (c + 1)] ++ appendPairsFrom (c + 1) n

/-- `domToMutation` of `controls_if`: read both counters with `parseInt`
(absent attribute gives `NaN`), then append `IF i`/`DO i` for
`i = 1 .. elseifCount_` (no iterations when the counter is `NaN`) and an
`ELSE` input when `elseCount_` is truthy. -/
def domToMutation (b : IfBlock) (m : MutationElem) : IfBlock :=
  let e := parseIntAttr m "elseif"
  let l := parseIntAttr m "else"
  { elseifCount := e, elseCount := l,
    inputs := b.inputs ++ appendPairs (e.getD 0)
      ++ (if truthy l then [InputName.elseInput] else []) }

/-- The type of a clause block in the mutator workspace (the mutator palette
of `controls_if` offers exactly `controls_if_elseif` and `controls_if_else`). -/
inductive ClauseTy where
  | elseif
  | elseClause
  deriving DecidableEq

/-- A clause block on the container's `STACK`, with the connection pointers
`valueConnection_`/`statementConnection_` that `saveConnections` may have
stored (connections are opaque ids). -/
structure ClauseBlock where
  ty : ClauseTy
  valueConnection : Option Nat
  statementConnection : Option Nat
  deriving DecidableEq

/-- `decompose` of `controls_if`: build the container's `STACK` chain, one
fresh `controls_if_elseif` block per else-if clause (none when the counter is
`NaN`) and one fresh `controls_if_else` block when `elseCount_` is truthy. -/
def decompose (b : IfBlock) : List ClauseBlock :=
  List.replicate (b.elseifCount.getD 0) ⟨ClauseTy.elseif, none, none⟩
    ++ (if truthy b.elseCount then [⟨ClauseTy.elseClause, none, none⟩] else [])

/-- `removeInput name`: remove the named input (the first occurrence). -/
def removeFirst (inputs : List InputName) (name : InputName) : List InputName :=
  match inputs with
  | [] => []
  | a :: rest => if a = name then rest else a :: removeFirst rest name

/-- The loop `for (i = elseifCount_; i > 0; i--) { removeInput IFi; DOi }`. -/
def removeElseifs (inputs : List InputName) : Nat → List InputName
  | 0 => inputs
  | n + 1 =>
    removeElseifs
      (removeFirst (removeFirst inputs (InputName.ifN (n + 1))) (InputName.doN (n + 1))) n

/-- The `while (clauseBlock)` loop of `compose`: walk the clause chain,
counting clauses back, appending the matching inputs, and reconnecting any
saved child connections (recorded as `(input, connection)` events). -/
def composeLoop (blk : IfBlock) : List ClauseBlock → IfBlock × List (InputName × Nat)
  | [] => (blk, [])
  | c :: rest =>
    match c.ty with
    | ClauseTy.elseif =>
      let cnt := jsInc blk.elseifCount
      let n := cnt.getD 0
      let blk1 : IfBlock :=
        { blk with
          elseifCount := cnt,
          inputs := blk.inputs ++ [InputName.ifN n, InputName.doN n] }
      let evs :=
        (match c.valueConnection with
         | some v => [(InputName.ifN n, v)]
         | none => [])
        ++ (match c.statementConnection with
            | some s => [(InputName.doN n, s)]
            | none => [])
      let r := composeLoop blk1 rest
      (r.1, evs ++ r.2)
    | ClauseTy.elseClause =>
      let blk1 : IfBlock :=
        { blk with
          elseCount := jsInc blk.elseCount,
          inputs := blk.inputs ++ [InputName.elseInput] }
      let evs :=
        match c.statementConnection with
        | some s => [(InputName.elseInput, s)]
        | none => []
      let r := composeLoop blk1 rest
      (r.1, evs ++ r.2)

/-- `compose` of `controls_if`: remove the `ELSE` input when `elseCount_` is
truthy, remove `IFi`/`DOi` for `i = elseifCount_ .. 1`, zero both counters,
then rebuild from the container's clause chain. -/
def compose (b : IfBlock) (clauses : List ClauseBlock) :
    IfBlock × List (InputName × Nat) :=
  let inputs0 :=
    if truthy b.elseCount then removeFirst b.inputs InputName.elseInput else b.inputs
  let inputs1 := removeElseifs inputs0 (b.elseifCount.getD 0)
  composeLoop { elseifCount := some 0, elseCount := some 0, inputs := inputs1 } clauses

/-!
Model of `Blockly.bindEventWithChecks_`: the wrapper it installs splits the
incoming event into per-touch events (`Blockly.Touch.splitEventByTouches`,
an external collaborator passed as a parameter) and calls the bound handler
on those that pass `Blockly.Touch.shouldHandleEvent` (also a parameter),
skipping the check when `opt_noCaptureIdentifier` is set. We record the list
of events the handler is invoked on and the final `handled` flag.
-/

/-- The body of `wrapFunc` in `Blockly.bindEventWithChecks_`. -/
def wrapFuncCalls {E : Type} (splitEventByTouches : E → List E)
    (shouldHandleEvent : E → Bool) (noCaptureIdentifier : Bool) (e : E) :
    List E × Bool :=
  let captureIdentifier := !noCaptureIdentifier
  (splitEventByTouches e).foldl
    (fun acc ev =>
      if captureIdentifier && !shouldHandleEvent ev then acc
      else (acc.1 ++ [ev], true))
    ([], false)

/-!
Model of `Blockly.isNumber`: the regular expression
`/^\s*-?\d+(\.\d+)?\s*$/` as a deterministic matcher over the string's
characters. The character classes of the regex (`\s`, `\d`, `-`, `.`) are
pairwise disjoint, so the greedy matcher below recognises exactly the
regex's language.
-/

/-- The JS regex class `\d`. -/
def isDigitChar (c : Char) : Bool :=
  '0' ≤ c && c ≤ '9'

/-- The JS regex class `\s` (ECMAScript WhiteSpace and LineTerminator). -/
def isSpaceChar (c : Char) : Bool :=
  c = ' ' || c = '\t' || c = '\n' || c = '\r' || c = '\x0b' || c = '\x0c' ||
  c = '\u00A0' || c = '\u1680' || c = '\u2000' || c = '\u2001' || c = '\u2002' ||
  c = '\u2003' || c = '\u2004' || c = '\u2005' || c = '\u2006' || c = '\u2007' ||
  c = '\u2008' || c = '\u2009' || c = '\u200A' || c = '\u2028' || c = '\u2029' ||
  c = '\u202F' || c = '\u205F' || c = '\u3000' || c = '\uFEFF'

/-- The regex part `-?`: strip one leading minus sign if present. -/
def stripMinus (l : List Char) : List Char :=
  match l with
  | c :: r => if c = '-' then r else l
  | [] => []

/-- The regex part `(\.\d+)?\s*$` applied to what follows the integer
digits: either a dot followed by one or more digits and trailing whitespace,
or only trailing whitespace. -/
def fracOrEnd (r1 : List Char) : Bool :=
  match r1 with
  | c :: r2 =>
    if c = '.' then
      !(r2.takeWhile isDigitChar).isEmpty &&
        (r2.dropWhile isDigitChar).all isSpaceChar
    else r1.all isSpaceChar
  | [] => List.all [] isSpaceChar

/-- `Blockly.isNumber`: `!!str.match(/^\s*-?\d+(\.\d+)?\s*$/)`, on the
string's character list. The regex's character classes are pairwise
disjoint, so this greedy matcher recognises exactly the regex's language. -/
def isNumber (s : List Char) : Bool :=
  let t2 := stripMinus (s.dropWhile isSpaceChar)
  !(t2.takeWhile isDigitChar).isEmpty && fracOrEnd (t2.dropWhile isDigitChar)

/-- The language claimed for `Blockly.isNumber`, written from the claim:
optional leading whitespace, an optional minus sign, one or more digits, an
optional fractional part (a dot followed by one or more digits), and
optional trailing whitespace. -/
def NumberSpec (s : List Char) : Prop :=
  ∃ w1 sign ds fr w2 : List Char,
    s = w1 ++ sign ++ ds ++ fr ++ w2 ∧
    (∀ c ∈ w1, isSpaceChar c = true) ∧
    (sign = [] ∨ sign = ['-']) ∧
    ds ≠ [] ∧ (∀ c ∈ ds, isDigitChar c = true) ∧
    (fr = [] ∨ ∃ fs, fr = '.' :: fs ∧ fs ≠ [] ∧
      (∀ c ∈ fs, isDigitChar c = true)) ∧
    (∀ c ∈ w2, isSpaceChar c = true)

/-!
Model of `Blockly.defineBlocksWithJsonArray`. Array entries are
`Option BlockDef` with `none` for a falsy entry (`null`/`undefined`), which
stops the loop `for (i = 0, elem; elem = jsonArray[i]; i++)`. The registry
`Blockly.Blocks` is a map from type names to the stored definition.
-/

/-- A JSON block definition: its `type` property (`none` for
`null`/`undefined`) and the rest of the definition, opaque. -/
structure BlockDef where
  ty : Option String
  body : Nat
  deriving DecidableEq

/-- `Blockly.defineBlocksWithJsonArray` acting on the `Blockly.Blocks`
registry: stop at the first falsy entry, skip entries whose `type` is
`null`/`undefined` or `''` (warning only), otherwise register
`{init: jsonInitFactory_(elem)}` under the type name, overwriting. -/
def defineBlocksWithJsonArray (registry : String → Option BlockDef) :
    List (Option BlockDef) → (String → Option BlockDef)
  | [] => registry
  | none :: _ => registry
  | some elem :: rest =>
    match elem.ty with
    | none => defineBlocksWithJsonArray registry rest
    | some t =>
      if t = "" then defineBlocksWithJsonArray registry rest
      else
        defineBlocksWithJsonArray
          (fun s => if s = t then some elem else registry s) rest

/-!
Concrete sample values used by witness theorems.
-/

/-- A deletable, movable sample block. -/
def sampleBlock : Block :=
  ⟨1, true, true, false, 10, 20, 5, 7, [("q", 3)], true⟩

/-- A sample block that is not deletable. -/
def sampleFixedBlock : Block :=
  ⟨2, false, true, false, 0, 0, 5, 8, [], false⟩

/-- A sample state with `sampleBlock` selected and a highlighted connection. -/
def sampleState : BlocklyState :=
  ⟨false, some sampleBlock, none, none, DragMode.dragNone, some 3⟩

/-- A sample clipboard element. -/
def sampleXml : XmlDom :=
  ⟨7, [("x", 10), ("y", 20)], false⟩

/-- A sample state holding `sampleXml` on the clipboard. -/
def samplePasteState : BlocklyState :=
  ⟨false, none, some sampleXml, some 5, DragMode.dragNone, none⟩

/-- Ctrl+X without shift. -/
def cutEvent : KeyEvent := ⟨88, false, true, false, false, false⟩

/-- Ctrl+V without shift. -/
def pasteEvent : KeyEvent := ⟨86, false, true, false, false, false⟩

/-- The Backspace key with no modifiers. -/
def deleteEvent : KeyEvent := ⟨8, false, false, false, false, false⟩

/-- A `controls_if` with one else-if and an else clause, well formed. -/
def sampleIfBlock : IfBlock :=
  ⟨some 1, some 1,
   [InputName.ifN 0, InputName.doN 0, InputName.ifN 1, InputName.doN 1,
    InputName.elseInput]⟩

/-- A `controls_if` with two else-ifs and no else clause, well formed. -/
def sampleIfBlock2 : IfBlock :=
  ⟨some 2, some 0,
   [InputName.ifN 0, InputName.doN 0, InputName.ifN 1, InputName.doN 1,
    InputName.ifN 2, InputName.doN 2]⟩

/-- A `controls_if` whose `elseCount_` is `2` (reachable through
`domToMutation` on a hand-written mutation element, or through `compose`
with two else clause blocks). -/
def oddIfBlock : IfBlock :=
  ⟨some 0, some 2, [InputName.ifN 0, InputName.doN 0, InputName.elseInput]⟩

/-- An empty `Blockly.Blocks` registry. -/
def emptyRegistry : String → Option BlockDef := fun _ => none

/-- A sample JSON block definition of type `foo`. -/
def defFooA : BlockDef := ⟨some "foo", 1⟩

/-- A second JSON block definition of the same type `foo`. -/
def defFooB : BlockDef := ⟨some "foo", 2⟩

/-- A JSON block definition with a missing `type`. -/
def defNoType : BlockDef := ⟨none, 3⟩

/-!
Helper lemmas.
-/

theorem find?_filter_ne (l : List (String × Int)) (k : String) :
    (l.filter (fun p => p.1 ≠ k)).find? (fun p => p.1 = k) = none := by
  rw [List.find?_eq_none]
  intro p hp
  rcases List.mem_filter.1 hp with ⟨-, h2⟩
  simpa using of_decide_eq_true h2

theorem getAttribute_setAttribute_self (x : XmlDom) (k : String) (v : Int) :
    (x.setAttribute k v).getAttribute k = some v := by
  unfold XmlDom.setAttribute XmlDom.getAttribute
  rw [List.find?_append, find?_filter_ne]
  simp

theorem find?_filter_of_imp {α : Type} (p q : α → Bool)
    (h : ∀ a, q a = true → p a = true) (l : List α) :
    (l.filter p).find? q = l.find? q := by
  induction l with
  | nil => rfl
  | cons a l ih =>
    cases hq : q a with
    | true =>
      rw [List.filter_cons_of_pos (h a hq), List.find?_cons_of_pos _ hq,
        List.find?_cons_of_pos _ hq]
    | false =>
      cases hp : p a with
      | true =>
        rw [List.filter_cons_of_pos hp, List.find?_cons_of_neg _ (by simp [hq]),
          List.find?_cons_of_neg _ (by simp [hq]), ih]
      | false =>
        rw [List.filter_cons_of_neg (by simp [hp]), List.find?_cons_of_neg _ (by simp [hq]), ih]

theorem getAttribute_setAttribute_ne (x : XmlDom) (k k' : String) (v : Int)
    (h : k ≠ k') :
    (x.setAttribute k v).getAttribute k' = x.getAttribute k' := by
  unfold XmlDom.setAttribute XmlDom.getAttribute
  rw [List.find?_append]
  rw [find?_filter_of_imp (fun p => p.1 ≠ k) (fun p => p.1 = k')
    (by intro a ha; have := of_decide_eq_true ha; simp [this, Ne.symm h]) x.attrs]
  cases hf : x.attrs.find? (fun p => p.1 = k') with
  | none => simp [List.find?_cons, Ne.symm h, h]
  | some p => simp

/-!
C3 and C4: the clipboard operations.
-/

/-- C4: `Blockly.copy_` stores on the clipboard the block's DOM serialization
with attribute `x` equal to the surface x-coordinate (negated for RTL) and
attribute `y` equal to the y-coordinate, with the trailing `next` chain
removed exactly when the drag mode is not `DRAG_FREE`, and records the
block's workspace as the clipboard source. -/
theorem C4_copy_clipboard (st : BlocklyState) (b : Block) :
    ∃ d : XmlDom,
      (copy_ st b).clipboardXml = some d ∧
      (copy_ st b).clipboardSource = some b.wsId ∧
      d.getAttribute "x" = some (if b.rtl then -b.x else b.x) ∧
      d.getAttribute "y" = some b.y ∧
      d.hasNext = (if st.dragMode = DragMode.dragFree then b.domHasNext else false) ∧
      d.base = b.domBase := by
  refine ⟨_, rfl, rfl, ?_, ?_, ?_, ?_⟩
  · rw [getAttribute_setAttribute_ne _ _ _ _ (by decide),
      getAttribute_setAttribute_self]
  · rw [getAttribute_setAttribute_self]
  · by_cases h : st.dragMode = DragMode.dragFree <;>
      simp [h, XmlDom.setAttribute, XmlDom.deleteNext, blockToDom]
  · by_cases h : st.dragMode = DragMode.dragFree <;>
      simp [h, XmlDom.setAttribute, XmlDom.deleteNext, blockToDom]

/-- C3: `Blockly.duplicate_` pastes a copy of the block into the block's own
workspace, and leaves `clipboardXml_` and `clipboardSource_` (and the rest of
the state) exactly as they were before the call. -/
theorem C3_duplicate_preserves_clipboard (st : BlocklyState) (b : Block) :
    (duplicate_ st b).1 = st ∧
    (duplicate_ st b).2 =
      [Action.paste (some b.wsId) ((copy_ st b).clipboardXml)] := by
  constructor
  · cases st
    rfl
  · rfl

/-!
C1, C2, C5: the keyboard handler.
-/

/-- C1: with Ctrl/Cmd/Alt held and shift up, the X key on a selected block
that is deletable and movable first puts the block's XML on the local
clipboard (via `copy_`) and then disposes the selected block; when no block
is selected, or the selected block is not deletable or not movable, neither
the clipboard nor the workspace changes (no state change, no effects). -/
theorem C1_cut_copies_then_disposes (st : BlocklyState) (e : KeyEvent)
    (hk : e.keyCode = 88) (hm : (e.altKey || e.ctrlKey || e.metaKey) = true)
    (hs : e.shiftKey = false) (ht : e.targetIsInput = false)
    (hro : st.readOnly = false) :
    (∀ b, st.selected = some b → b.deletable = true → b.movable = true →
      onKeyDown_ st e =
        ({ copy_ st b with highlightedConnection := none },
         [Action.setGroup true, Action.hideChaff,
          Action.dispose (some b) (decide (st.dragMode ≠ DragMode.dragFree)) true]
           ++ (match st.highlightedConnection with
               | some c => [Action.unhighlight c]
               | none => []) ++ [Action.setGroup false])) ∧
    ((match st.selected with
      | some b => b.deletable = false ∨ b.movable = false
      | none => True) →
      onKeyDown_ st e = (st, [])) := by
  constructor
  · intro b hb hd hmv
    cases hc : st.highlightedConnection with
    | none => simp [onKeyDown_, copy_, hk, hm, hs, ht, hro, hb, hd, hmv, hc]
    | some c => simp [onKeyDown_, copy_, hk, hm, hs, ht, hro, hb, hd, hmv, hc]
  · intro h
    cases hb : st.selected with
    | none => simp [onKeyDown_, hk, hm, hs, ht, hro, hb]
    | some b =>
      rw [hb] at h
      rcases h with h | h <;> simp [onKeyDown_, hk, hm, hs, ht, hro, hb, h]

/-- C1 witness: cutting the selected sample block copies it and disposes it;
with a non-deletable block selected nothing happens. -/
theorem C1_cut_witness :
    sampleState.selected = some sampleBlock ∧
    onKeyDown_ sampleState cutEvent =
      ({ copy_ sampleState sampleBlock with highlightedConnection := none },
       [Action.setGroup true, Action.hideChaff,
        Action.dispose (some sampleBlock)
          (decide (sampleState.dragMode ≠ DragMode.dragFree)) true]
         ++ (match sampleState.highlightedConnection with
             | some c => [Action.unhighlight c]
             | none => []) ++ [Action.setGroup false]) ∧
    onKeyDown_ { sampleState with selected := some sampleFixedBlock } cutEvent =
      ({ sampleState with selected := some sampleFixedBlock }, []) :=
  ⟨rfl,
   (C1_cut_copies_then_disposes sampleState cutEvent rfl rfl rfl rfl rfl).1
     sampleBlock rfl rfl rfl,
   (C1_cut_copies_then_disposes
     { sampleState with selected := some sampleFixedBlock } cutEvent
     rfl rfl rfl rfl rfl).2 (Or.inl rfl)⟩

/-- C2: with Ctrl/Cmd/Alt held and shift up, the V key pastes the stored
clipboard XML into the clipboard source workspace, wrapped in a single undo
event group; when the clipboard is `null`, nothing happens at all. -/
theorem C2_paste_goes_to_clipboard_source (st : BlocklyState) (e : KeyEvent)
    (hk : e.keyCode = 86) (hm : (e.altKey || e.ctrlKey || e.metaKey) = true)
    (hs : e.shiftKey = false) (ht : e.targetIsInput = false)
    (hro : st.readOnly = false) :
    (∀ x, st.clipboardXml = some x →
      onKeyDown_ st e =
        (st, [Action.setGroup true, Action.paste st.clipboardSource (some x),
              Action.setGroup false])) ∧
    (st.clipboardXml = none → onKeyDown_ st e = (st, [])) := by
  constructor
  · intro x hx
    cases hb : st.selected with
    | none => simp [onKeyDown_, hk, hm, hs, ht, hro, hb, hx]
    | some b =>
      by_cases hd : b.deletable = true ∧ b.movable = true
      · simp [onKeyDown_, hk, hm, hs, ht, hro, hb, hx, hd.1, hd.2]
      · have : (b.deletable && b.movable) = false := by
          cases h1 : b.deletable <;> cases h2 : b.movable <;> simp_all
        simp [onKeyDown_, hk, hm, hs, ht, hro, hb, hx, this]
  · intro hx
    cases hb : st.selected with
    | none => simp [onKeyDown_, hk, hm, hs, ht, hro, hb, hx]
    | some b =>
      by_cases hd : b.deletable = true ∧ b.movable = true
      · simp [onKeyDown_, hk, hm, hs, ht, hro, hb, hx, hd.1, hd.2]
      · have : (b.deletable && b.movable) = false := by
          cases h1 : b.deletable <;> cases h2 : b.movable <;> simp_all
        simp [onKeyDown_, hk, hm, hs, ht, hro, hb, hx, this]

/-- C2 witness: pasting with a loaded clipboard emits exactly one paste into
the clipboard source inside one event group; with an empty clipboard the
handler does nothing. -/
theorem C2_paste_witness :
    samplePasteState.clipboardXml = some sampleXml ∧
    onKeyDown_ samplePasteState pasteEvent =
      (samplePasteState,
       [Action.setGroup true,
        Action.paste samplePasteState.clipboardSource (some sampleXml),
        Action.setGroup false]) ∧
    onKeyDown_ { samplePasteState with clipboardXml := none } pasteEvent =
      ({ samplePasteState with clipboardXml := none }, []) :=
  ⟨rfl,
   (C2_paste_goes_to_clipboard_source samplePasteState pasteEvent
     rfl rfl rfl rfl rfl).1 sampleXml rfl,
   (C2_paste_goes_to_clipboard_source
     { samplePasteState with clipboardXml := none } pasteEvent
     rfl rfl rfl rfl rfl).2 rfl⟩

/-- C5: Delete or Backspace disposes the selected block exactly when one is
selected and deletable; the disposal runs in a single event group, the heal
flag of `dispose` is true exactly when the drag mode is not `DRAG_FREE`, and
a highlighted connection is unhighlighted and reset to `null`. When nothing
deletable is selected only the browser default is prevented. -/
theorem C5_delete_key (st : BlocklyState) (e : KeyEvent)
    (hk : e.keyCode = 8 ∨ e.keyCode = 46) (ht : e.targetIsInput = false)
    (hro : st.readOnly = false) :
    (∀ b, st.selected = some b → b.deletable = true →
      onKeyDown_ st e =
        ({ st with highlightedConnection := none },
         [Action.preventDefault, Action.setGroup true, Action.hideChaff,
          Action.dispose (some b) (decide (st.dragMode ≠ DragMode.dragFree)) true]
           ++ (match st.highlightedConnection with
               | some c => [Action.unhighlight c]
               | none => []) ++ [Action.setGroup false])) ∧
    ((match st.selected with
      | some b => b.deletable = false
      | none => True) →
      onKeyDown_ st e = (st, [Action.preventDefault])) := by
  constructor
  · intro b hb hd
    have hst : ({ st with highlightedConnection := none } : BlocklyState) =
        ⟨st.readOnly, st.selected, st.clipboardXml, st.clipboardSource,
         st.dragMode, none⟩ := rfl
    cases hc : st.highlightedConnection with
    | none =>
      rcases hk with hk | hk <;>
        (simp [onKeyDown_, hk, ht, hro, hb, hd, hc, hst]; cases st; simp_all)
    | some c =>
      rcases hk with hk | hk <;> simp [onKeyDown_, hk, ht, hro, hb, hd, hc]
  · intro h
    cases hb : st.selected with
    | none => rcases hk with hk | hk <;> simp [onKeyDown_, hk, ht, hro, hb]
    | some b =>
      rw [hb] at h
      rcases hk with hk | hk <;> simp [onKeyDown_, hk, ht, hro, hb, h]

/-- C5 witness: Backspace on the sample state disposes the selected sample
block, unhighlights connection 3, and resets the highlight; with a
non-deletable block selected it only prevents the browser default. -/
theorem C5_delete_witness :
    sampleState.selected = some sampleBlock ∧
    onKeyDown_ sampleState deleteEvent =
      ({ sampleState with highlightedConnection := none },
       [Action.preventDefault, Action.setGroup true, Action.hideChaff,
        Action.dispose (some sampleBlock)
          (decide (sampleState.dragMode ≠ DragMode.dragFree)) true]
         ++ (match sampleState.highlightedConnection with
             | some c => [Action.unhighlight c]
             | none => []) ++ [Action.setGroup false]) ∧
    onKeyDown_ { sampleState with selected := some sampleFixedBlock } deleteEvent =
      ({ sampleState with selected := some sampleFixedBlock },
       [Action.preventDefault]) :=
  ⟨rfl,
   (C5_delete_key sampleState deleteEvent (Or.inl rfl) rfl rfl).1
     sampleBlock rfl rfl,
   (C5_delete_key { sampleState with selected := some sampleFixedBlock }
     deleteEvent (Or.inl rfl) rfl rfl).2 rfl⟩

/-!
C8: bindEventWithChecks_.
-/

theorem foldl_collect {E : Type} (p : E → Bool) (l : List E) :
    ∀ (acc : List E) (b : Bool),
      (l.foldl
        (fun (a : List E × Bool) ev => if p ev = false then a else (a.1 ++ [ev], true))
        (acc, b)).1 = acc ++ l.filter p := by
  induction l with
  | nil => intro acc b; simp
  | cons a l ih =>
    intro acc b
    cases hp : p a with
    | true => simp [List.foldl_cons, hp, ih, List.filter_cons]
    | false => simp [List.foldl_cons, hp, ih, List.filter_cons]

/-- C8: the wrapper installed by `Blockly.bindEventWithChecks_` invokes the
bound handler exactly on the per-touch events (from
`Blockly.Touch.splitEventByTouches`) that pass
`Blockly.Touch.shouldHandleEvent`; with `opt_noCaptureIdentifier` set the
check is skipped and the handler runs on every touch point. -/
theorem C8_bind_event_with_checks {E : Type} (split : E → List E)
    (shouldHandle : E → Bool) (noCapture : Bool) (e : E) :
    (wrapFuncCalls split shouldHandle noCapture e).1 =
      (split e).filter (fun ev => noCapture || shouldHandle ev) ∧
    (wrapFuncCalls split shouldHandle true e).1 = split e := by
  constructor
  · unfold wrapFuncCalls
    have hfun :
        (fun (a : List E × Bool) ev =>
          if !noCapture && !shouldHandle ev then a else (a.1 ++ [ev], true)) =
        (fun (a : List E × Bool) ev =>
          if !(noCapture || shouldHandle ev) then a else (a.1 ++ [ev], true)) := by
      funext a ev
      rw [Bool.not_or]
    simp only [hfun]
    simpa using foldl_collect (fun ev => noCapture || shouldHandle ev) (split e) [] false
  · unfold wrapFuncCalls
    have := foldl_collect (fun (_ : E) => true) (split e) [] false
    simpa using this

/-!
C10: defineBlocksWithJsonArray.
-/

theorem defineBlocks_stops_at_falsy (xs : List (Option BlockDef)) :
    ∀ (registry : String → Option BlockDef) (ys : List (Option BlockDef)),
      defineBlocksWithJsonArray registry (xs ++ none :: ys) =
        defineBlocksWithJsonArray registry xs := by
  induction xs with
  | nil => intro registry ys; rfl
  | cons x xs ih =>
    intro registry ys
    cases x with
    | none => rfl
    | some elem =>
      cases helem : elem.ty with
      | none => simp [defineBlocksWithJsonArray, helem, ih]
      | some t =>
        by_cases h : t = "" <;> simp [defineBlocksWithJsonArray, helem, h, ih]

/-- C10: `Blockly.defineBlocksWithJsonArray` stops at the first falsy array
entry, ignoring everything after it; an entry whose `type` is missing or the
empty string is skipped; and a definition re-using a type name overwrites the
earlier registration (the later of two same-typed entries wins). -/
theorem C10_define_blocks_json_array :
    (∀ (registry : String → Option BlockDef) (xs ys : List (Option BlockDef)),
      defineBlocksWithJsonArray registry (xs ++ none :: ys) =
        defineBlocksWithJsonArray registry xs) ∧
    (∀ (registry : String → Option BlockDef) (e : BlockDef)
        (rest : List (Option BlockDef)),
      e.ty = none ∨ e.ty = some "" →
      defineBlocksWithJsonArray registry (some e :: rest) =
        defineBlocksWithJsonArray registry rest) ∧
    (∀ (registry : String → Option BlockDef) (e e' : BlockDef) (t : String),
      e.ty = some t → e'.ty = some t → t ≠ "" →
      defineBlocksWithJsonArray registry [some e, some e'] t = some e') := by
  refine ⟨fun registry xs ys => defineBlocks_stops_at_falsy xs registry ys,
    ?_, ?_⟩
  · intro registry e rest h
    rcases h with h | h <;> simp [defineBlocksWithJsonArray, h]
  · intro registry e e' t he he' ht
    simp [defineBlocksWithJsonArray, he, he', ht]

/-- C10 witness: a null entry hides a later definition; a definition with no
`type` is skipped; registering `foo` twice keeps the second definition. -/
theorem C10_define_blocks_witness :
    defineBlocksWithJsonArray emptyRegistry
        ([some defFooA] ++ none :: [some defFooB]) =
      defineBlocksWithJsonArray emptyRegistry [some defFooA] ∧
    defineBlocksWithJsonArray emptyRegistry (some defNoType :: [some defFooA]) =
      defineBlocksWithJsonArray emptyRegistry [some defFooA] ∧
    defineBlocksWithJsonArray emptyRegistry [some defFooA, some defFooB] "foo" =
      some defFooB :=
  ⟨C10_define_blocks_json_array.1 emptyRegistry [some defFooA] [some defFooB],
   C10_define_blocks_json_array.2.1 emptyRegistry defNoType [some defFooA]
     (Or.inl rfl),
   C10_define_blocks_json_array.2.2 emptyRegistry defFooA defFooB "foo"
     rfl rfl (by decide)⟩

/-!
C6 and C7: the controls_if mutation methods.
-/

theorem removeFirst_append_of_not_mem (l1 l2 : List InputName) (a : InputName)
    (h : a ∉ l1) : removeFirst (l1 ++ l2) a = l1 ++ removeFirst l2 a := by
  induction l1 with
  | nil => rfl
  | cons x l1 ih =>
    have hx : ¬x = a := fun he => h (he ▸ List.mem_cons_self x l1)
    simp only [List.cons_append, removeFirst, if_neg hx, List.append_eq]
    rw [ih (fun hm => h (List.mem_cons_of_mem _ hm))]

theorem ifN_not_mem_appendPairs {k n : Nat} (h : n < k) :
    InputName.ifN k ∉ appendPairs n := by
  induction n with
  | zero => simp [appendPairs]
  | succ n ih =>
    simp only [appendPairs, List.mem_append, List.mem_cons]
    rintro (hm | hm | hm | hm)
    · exact ih (Nat.lt_of_succ_lt h) hm
    · exact absurd (InputName.ifN.inj hm) (by omega)
    · exact InputName.noConfusion hm
    · exact List.not_mem_nil _ hm

theorem doN_not_mem_appendPairs {k n : Nat} (h : n < k) :
    InputName.doN k ∉ appendPairs n := by
  induction n with
  | zero => simp [appendPairs]
  | succ n ih =>
    simp only [appendPairs, List.mem_append, List.mem_cons]
    rintro (hm | hm | hm | hm)
    · exact ih (Nat.lt_of_succ_lt h) hm
    · exact InputName.noConfusion hm
    · exact absurd (InputName.doN.inj hm) (by omega)
    · exact List.not_mem_nil _ hm

theorem elseInput_not_mem_appendPairs (n : Nat) :
    InputName.elseInput ∉ appendPairs n := by
  induction n with
  | zero => simp [appendPairs]
  | succ n ih =>
    simp only [appendPairs, List.mem_append, List.mem_cons]
    rintro (hm | hm | hm | hm)
    · exact ih hm
    · exact InputName.noConfusion hm
    · exact InputName.noConfusion hm
    · exact List.not_mem_nil _ hm

theorem removeElseifs_cancels (n : Nat) :
    removeElseifs ([InputName.ifN 0, InputName.doN 0] ++ appendPairs n) n =
      [InputName.ifN 0, InputName.doN 0] := by
  induction n with
  | zero => rfl
  | succ n ih =>
    have hifn : InputName.ifN (n + 1) ∉
        [InputName.ifN 0, InputName.doN 0] ++ appendPairs n := by
      simp only [List.mem_append, List.mem_cons]
      rintro ((hm | hm | hm) | hm)
      · exact absurd (InputName.ifN.inj hm) (by omega)
      · exact InputName.noConfusion hm
      · exact List.not_mem_nil _ hm
      · exact ifN_not_mem_appendPairs (Nat.lt_succ_self n) hm
    have hdon : InputName.doN (n + 1) ∉
        [InputName.ifN 0, InputName.doN 0] ++ appendPairs n := by
      simp only [List.mem_append, List.mem_cons]
      rintro ((hm | hm | hm) | hm)
      · exact InputName.noConfusion hm
      · exact absurd (InputName.doN.inj hm) (by omega)
      · exact List.not_mem_nil _ hm
      · exact doN_not_mem_appendPairs (Nat.lt_succ_self n) hm
    show removeElseifs
      (removeFirst
        (removeFirst ([InputName.ifN 0, InputName.doN 0]
           ++ (appendPairs n ++ [InputName.ifN (n + 1), InputName.doN (n + 1)]))
          (InputName.ifN (n + 1)))
        (InputName.doN (n + 1))) n = _
    rw [← List.append_assoc,
      removeFirst_append_of_not_mem _ _ _ hifn]
    have h1 : removeFirst [InputName.ifN (n + 1), InputName.doN (n + 1)]
        (InputName.ifN (n + 1)) = [InputName.doN (n + 1)] := by
      simp [removeFirst]
    rw [h1, removeFirst_append_of_not_mem _ _ _ hdon]
    have h2 : removeFirst [InputName.doN (n + 1)] (InputName.doN (n + 1)) = [] := by
      simp [removeFirst]
    rw [h2, List.append_nil]
    exact ih

theorem appendPairsFrom_succ_right (n : Nat) :
    ∀ c, appendPairsFrom c (n + 1) =
      appendPairsFrom c n ++ [InputName.ifN (c + n + 1), InputName.doN (c + n + 1)] := by
  induction n with
  | zero => intro c; simp [appendPairsFrom]
  | succ n ih =>
    intro c
    show [InputName.ifN (c + 1), InputName.doN (c + 1)]
        ++ appendPairsFrom (c + 1) (n + 1) = _
    rw [ih (c + 1)]
    simp [appendPairsFrom, Nat.add_assoc, Nat.add_comm, Nat.add_left_comm]

theorem appendPairsFrom_zero_eq (n : Nat) : appendPairsFrom 0 n = appendPairs n := by
  induction n with
  | zero => rfl
  | succ n ih =>
    rw [appendPairsFrom_succ_right, ih]
    simp [appendPairs]

theorem composeLoop_replicate (n : Nat) :
    ∀ (c : Nat) (l : Option Nat) (pre : List InputName) (tl : List ClauseBlock),
      composeLoop ⟨some c, l, pre⟩
          (List.replicate n ⟨ClauseTy.elseif, none, none⟩ ++ tl) =
        composeLoop ⟨some (c + n), l, pre ++ appendPairsFrom c n⟩ tl := by
  induction n with
  | zero => intro c l pre tl; simp [appendPairsFrom]
  | succ n ih =>
    intro c l pre tl
    rw [List.replicate_succ, List.cons_append]
    simp only [composeLoop, jsInc, Option.getD_some, List.nil_append]
    rw [ih (c + 1)]
    have harith : c + 1 + n = c + (n + 1) := by omega
    rw [harith]
    simp [appendPairsFrom]

theorem composeLoop_replicate_nil (n c : Nat) (l : Option Nat)
    (pre : List InputName) :
    composeLoop ⟨some c, l, pre⟩
        (List.replicate n ⟨ClauseTy.elseif, none, none⟩) =
      (⟨some (c + n), l, pre ++ appendPairsFrom c n⟩, []) := by
  have h := composeLoop_replicate n c l pre []
  rw [List.append_nil] at h
  rw [h]
  rfl

/-- C6 counterexample: on a `controls_if` whose `elseCount_` is `2`
(`oddIfBlock`, reachable from `domToMutation` of a mutation element with
attribute `else="2"`), applying `compose` to the container produced by
`decompose` yields `elseCount_ = 1`, not the value the block had before. -/
theorem C6_compose_decompose_counterexample :
    (compose oddIfBlock (decompose oddIfBlock)).1.elseCount ≠
      oddIfBlock.elseCount := by decide

/-- C6 (amended): for a `controls_if` block with numeric (non-`NaN`) counts,
`elseCount_ ≤ 1`, and the well-formed input list `IF0, DO0, IF1, DO1, ...,
IFn, DOn` plus an `ELSE` input iff `elseCount_` is nonzero, applying
`compose` to the container block produced by `decompose` restores exactly the
block (both counters and the whole input list) and reconnects nothing. In
general `compose` after `decompose` sets `elseCount_` to `1` iff it was
truthy, so an `elseCount_` of `2` or more (or a `NaN` counter) is not
restored. -/
theorem C6_compose_decompose_roundtrip (b : IfBlock) (n l : Nat)
    (he : b.elseifCount = some n) (hl : b.elseCount = some l) (hl1 : l ≤ 1)
    (hw : b.inputs = [InputName.ifN 0, InputName.doN 0] ++ appendPairs n
      ++ (if l = 0 then [] else [InputName.elseInput])) :
    compose b (decompose b) = (b, []) := by
  obtain ⟨ec, lc, inp⟩ := b
  simp only at he hl hw
  subst he hl hw
  have hlc : l = 0 ∨ l = 1 := by omega
  rcases hlc with hlc | hlc <;> subst hlc
  · simp only [compose, decompose, truthy, Option.getD_some, if_pos,
      List.append_nil, reduceIte]
    have hf : ¬(false = true) := by simp
    rw [if_neg hf, if_neg hf, List.append_nil, removeElseifs_cancels n,
      composeLoop_replicate_nil n 0 (some 0), appendPairsFrom_zero_eq]
    simp
  · have hnm : InputName.elseInput ∉
        [InputName.ifN 0, InputName.doN 0] ++ appendPairs n := by
      simp only [List.mem_append, List.mem_cons]
      rintro ((hm | hm | hm) | hm)
      · exact InputName.noConfusion hm
      · exact InputName.noConfusion hm
      · exact List.not_mem_nil _ hm
      · exact elseInput_not_mem_appendPairs n hm
    simp only [compose, decompose, truthy, Option.getD_some, if_pos,
      reduceIte]
    have h10 : ¬((1 : Nat) = 0) := by simp
    rw [if_neg h10, removeFirst_append_of_not_mem _ _ _ hnm]
    have h2 : removeFirst [InputName.elseInput] InputName.elseInput = [] := by
      simp [removeFirst]
    rw [h2, List.append_nil, removeElseifs_cancels n,
      composeLoop_replicate n 0 (some 0) [InputName.ifN 0, InputName.doN 0]
        [⟨ClauseTy.elseClause, none, none⟩],
      appendPairsFrom_zero_eq]
    simp [composeLoop, jsInc]

/-- C6 witness: the round trip at a concrete well-formed block with one
else-if and one else clause. -/
theorem C6_compose_decompose_witness :
    sampleIfBlock.elseifCount = some 1 ∧ sampleIfBlock.elseCount = some 1 ∧
    compose sampleIfBlock (decompose sampleIfBlock) = (sampleIfBlock, []) :=
  ⟨rfl, rfl,
   C6_compose_decompose_roundtrip sampleIfBlock 1 1 rfl rfl (by decide) rfl⟩

/-- C7 counterexample: on a `controls_if` with two else-ifs and no else
clause (`sampleIfBlock2`), `mutationToDom` yields an element with only the
`elseif` attribute, and `domToMutation` of that element sets `elseCount_` to
`parseInt(null, 10) = NaN` (modelled `none`), not to the `0` the block had:
the round trip does not restore `elseCount_`. -/
theorem C7_mutation_xml_counterexample :
    mutationToDom sampleIfBlock2 = some ⟨[("elseif", 2)]⟩ ∧
    (domToMutation IfBlock.fresh ⟨[("elseif", 2)]⟩).elseifCount =
      sampleIfBlock2.elseifCount ∧
    (domToMutation IfBlock.fresh ⟨[("elseif", 2)]⟩).elseCount ≠
      sampleIfBlock2.elseCount := by decide

/-- C7 (amended): for a `controls_if` block with numeric counts
`elseifCount_ = e` and `elseCount_ = l`, `mutationToDom` returns `null`
exactly when `e` and `l` are both zero; otherwise it returns a `mutation`
element, and `domToMutation` of that element restores `elseifCount_` exactly
when `e` is nonzero and sets `elseCount_` to `1` when `l` is nonzero — but a
zero count comes back as `NaN` (`parseInt` of an absent attribute), not `0`
— and appends value/statement inputs `IF i`/`DO i` for `i = 1..e` and an
`ELSE` statement input iff `l` is nonzero. -/
theorem C7_mutation_xml_roundtrip (b c : IfBlock) (e l : Nat)
    (he : b.elseifCount = some e) (hl : b.elseCount = some l) :
    (mutationToDom b = none ↔ e = 0 ∧ l = 0) ∧
    (¬(e = 0 ∧ l = 0) →
      ∃ m, mutationToDom b = some m ∧
        (domToMutation c m).elseifCount = (if e = 0 then none else some e) ∧
        (domToMutation c m).elseCount = (if l = 0 then none else some 1) ∧
        (domToMutation c m).inputs =
          c.inputs ++ appendPairs e
            ++ (if l = 0 then [] else [InputName.elseInput])) := by
  obtain ⟨ec, lc, inp⟩ := b
  simp only at he hl
  subst he hl
  cases e with
  | zero =>
    cases l with
    | zero =>
      refine ⟨⟨fun _ => ⟨rfl, rfl⟩, fun _ => rfl⟩, ?_⟩
      intro h
      exact absurd ⟨rfl, rfl⟩ h
    | succ l' =>
      refine ⟨⟨?_, ?_⟩, ?_⟩
      · intro h
        simp [mutationToDom, truthy] at h
      · rintro ⟨-, h⟩
        exact absurd h (Nat.succ_ne_zero l')
      · intro _
        exact ⟨⟨[("else", 1)]⟩, rfl, rfl, rfl, rfl⟩
  | succ e' =>
    cases l with
    | zero =>
      refine ⟨⟨?_, ?_⟩, ?_⟩
      · intro h
        simp [mutationToDom, truthy] at h
      · rintro ⟨h, -⟩
        exact absurd h (Nat.succ_ne_zero e')
      · intro _
        exact ⟨⟨[("elseif", e' + 1)]⟩, rfl, rfl, rfl, rfl⟩
    | succ l' =>
      refine ⟨⟨?_, ?_⟩, ?_⟩
      · intro h
        simp [mutationToDom, truthy] at h
      · rintro ⟨h, -⟩
        exact absurd h (Nat.succ_ne_zero e')
      · intro _
        exact ⟨⟨[("elseif", e' + 1), ("else", 1)]⟩, rfl, rfl, rfl, rfl⟩

/-- C7 witness: the amended round trip at `sampleIfBlock2` (two else-ifs, no
else) applied to a fresh `controls_if` block. -/
theorem C7_mutation_xml_witness :
    sampleIfBlock2.elseifCount = some 2 ∧ sampleIfBlock2.elseCount = some 0 ∧
    ((mutationToDom sampleIfBlock2 = none ↔ (2 = 0 ∧ 0 = 0)) ∧
     (¬(2 = 0 ∧ 0 = 0) →
       ∃ m, mutationToDom sampleIfBlock2 = some m ∧
         (domToMutation IfBlock.fresh m).elseifCount =
           (if 2 = 0 then none else some 2) ∧
         (domToMutation IfBlock.fresh m).elseCount =
           (if 0 = 0 then none else some 1) ∧
         (domToMutation IfBlock.fresh m).inputs =
           IfBlock.fresh.inputs ++ appendPairs 2
             ++ (if 0 = 0 then [] else [InputName.elseInput]))) :=
  ⟨rfl, rfl,
   C7_mutation_xml_roundtrip sampleIfBlock2 IfBlock.fresh 2 0 rfl rfl⟩

/-!
C9: isNumber. Character-class disjointness, then the language equivalence.
-/

theorem space_not_digit {c : Char} (h : isSpaceChar c = true) :
    isDigitChar c = false := by
  simp only [isSpaceChar, Bool.or_eq_true, decide_eq_true_eq] at h
  rcases h with ((((((((((((((((((((((((rfl | rfl) | rfl) | rfl) | rfl) | rfl) | rfl) | rfl) | rfl) | rfl) | rfl) | rfl) | rfl) | rfl) | rfl) | rfl) | rfl) | rfl) | rfl) | rfl) | rfl) | rfl) | rfl) | rfl) | rfl) <;> decide

theorem digit_not_space {c : Char} (h : isDigitChar c = true) :
    isSpaceChar c = false := by
  cases hs : isSpaceChar c with
  | false => rfl
  | true => rw [space_not_digit hs] at h; cases h

theorem dropWhile_append_of_all {α : Type} (p : α → Bool) (l1 l2 : List α)
    (h : ∀ c ∈ l1, p c = true) : (l1 ++ l2).dropWhile p = l2.dropWhile p := by
  induction l1 with
  | nil => rfl
  | cons a l1 ih =>
    rw [List.cons_append, List.dropWhile_cons,
      if_pos (h a (List.mem_cons_self a l1))]
    exact ih (fun c hc => h c (List.mem_cons_of_mem _ hc))

theorem takeWhile_append_of_all {α : Type} (p : α → Bool) (l1 l2 : List α)
    (h : ∀ c ∈ l1, p c = true) : (l1 ++ l2).takeWhile p = l1 ++ l2.takeWhile p := by
  induction l1 with
  | nil => rfl
  | cons a l1 ih =>
    rw [List.cons_append, List.takeWhile_cons,
      if_pos (h a (List.mem_cons_self a l1)),
      ih (fun c hc => h c (List.mem_cons_of_mem _ hc))]
    rfl

theorem dropWhile_cons_false {α : Type} (p : α → Bool) (a : α) (l : List α)
    (h : p a = false) : (a :: l).dropWhile p = a :: l := by
  rw [List.dropWhile_cons, if_neg (by simp [h])]

theorem takeWhile_cons_false {α : Type} (p : α → Bool) (a : α) (l : List α)
    (h : p a = false) : (a :: l).takeWhile p = [] := by
  rw [List.takeWhile_cons, if_neg (by simp [h])]

theorem dropWhile_digit_of_space (w : List Char)
    (h : ∀ c ∈ w, isSpaceChar c = true) :
    w.dropWhile isDigitChar = w := by
  cases w with
  | nil => rfl
  | cons c r =>
    exact dropWhile_cons_false _ _ _
      (space_not_digit (h c (List.mem_cons_self c r)))

theorem takeWhile_digit_of_space (w : List Char)
    (h : ∀ c ∈ w, isSpaceChar c = true) :
    w.takeWhile isDigitChar = [] := by
  cases w with
  | nil => rfl
  | cons c r =>
    exact takeWhile_cons_false _ _ _
      (space_not_digit (h c (List.mem_cons_self c r)))

theorem dropWhile_head_false {α : Type} (p : α → Bool) (l : List α)
    (a : α) (l' : List α) (h : l.dropWhile p = a :: l') : p a = false := by
  induction l with
  | nil => cases h
  | cons x xs ih =>
    rw [List.dropWhile_cons] at h
    by_cases hx : p x = true
    · rw [if_pos hx] at h
      exact ih h
    · rw [if_neg hx] at h
      injection h with h1 h2
      subst h1
      exact Bool.eq_false_iff.mpr hx

theorem isNumber_tail_spec (t2 : List Char)
    (hds : (!(t2.takeWhile isDigitChar).isEmpty) = true)
    (hfrac : fracOrEnd (t2.dropWhile isDigitChar) = true) :
    ∃ ds fr w2, t2 = ds ++ fr ++ w2 ∧ ds ≠ [] ∧
      (∀ c ∈ ds, isDigitChar c = true) ∧
      (fr = [] ∨ ∃ fs, fr = '.' :: fs ∧ fs ≠ [] ∧
        (∀ c ∈ fs, isDigitChar c = true)) ∧
      (∀ c ∈ w2, isSpaceChar c = true) := by
  have hdsne : t2.takeWhile isDigitChar ≠ [] := by
    intro hnil
    rw [hnil] at hds
    simp at hds
  have hsplit : t2 = t2.takeWhile isDigitChar ++ t2.dropWhile isDigitChar :=
    (List.takeWhile_append_dropWhile _ _).symm
  have hdig : ∀ c ∈ t2.takeWhile isDigitChar, isDigitChar c = true :=
    fun c hc => List.mem_takeWhile_imp hc
  cases hr1 : t2.dropWhile isDigitChar with
  | nil =>
    refine ⟨t2.takeWhile isDigitChar, [], [], ?_, hdsne, hdig, Or.inl rfl,
      by intro c hc; cases hc⟩
    conv_lhs => rw [hsplit]
    rw [hr1]
    simp
  | cons b r2 =>
    rw [hr1] at hfrac
    by_cases hb : b = '.'
    · subst hb
      rw [show fracOrEnd ('.' :: r2) =
          (!(r2.takeWhile isDigitChar).isEmpty &&
            (r2.dropWhile isDigitChar).all isSpaceChar) from by
        simp [fracOrEnd], Bool.and_eq_true] at hfrac
      obtain ⟨hfs, hw3⟩ := hfrac
      have hfsne : r2.takeWhile isDigitChar ≠ [] := by
        intro hnil
        rw [hnil] at hfs
        simp at hfs
      refine ⟨t2.takeWhile isDigitChar, '.' :: r2.takeWhile isDigitChar,
        r2.dropWhile isDigitChar, ?_, hdsne, hdig,
        Or.inr ⟨r2.takeWhile isDigitChar, rfl, hfsne,
          fun c hc => List.mem_takeWhile_imp hc⟩,
        fun c hc => List.all_eq_true.mp hw3 c hc⟩
      conv_lhs => rw [hsplit]
      rw [hr1]
      conv_lhs => rw [← List.takeWhile_append_dropWhile isDigitChar r2]
      simp
    · rw [show fracOrEnd (b :: r2) = (b :: r2).all isSpaceChar from by
        simp [fracOrEnd, hb]] at hfrac
      refine ⟨t2.takeWhile isDigitChar, [], b :: r2, ?_, hdsne, hdig,
        Or.inl rfl, fun c hc => List.all_eq_true.mp hfrac c hc⟩
      conv_lhs => rw [hsplit]
      rw [hr1]
      simp

theorem isNumber_tail_complete (ds fr w2 : List Char) (hdsne : ds ≠ [])
    (hds : ∀ c ∈ ds, isDigitChar c = true)
    (hfr : fr = [] ∨ ∃ fs, fr = '.' :: fs ∧ fs ≠ [] ∧
      (∀ c ∈ fs, isDigitChar c = true))
    (hw2 : ∀ c ∈ w2, isSpaceChar c = true) :
    (!((ds ++ (fr ++ w2)).takeWhile isDigitChar).isEmpty) = true ∧
    fracOrEnd ((ds ++ (fr ++ w2)).dropWhile isDigitChar) = true := by
  have htw : (fr ++ w2).takeWhile isDigitChar = [] := by
    rcases hfr with rfl | ⟨fs, rfl, hfsne, hfs⟩
    · exact takeWhile_digit_of_space w2 hw2
    · exact takeWhile_cons_false _ _ _ (by decide)
  have hdw : (fr ++ w2).dropWhile isDigitChar = fr ++ w2 := by
    rcases hfr with rfl | ⟨fs, rfl, hfsne, hfs⟩
    · exact dropWhile_digit_of_space w2 hw2
    · exact dropWhile_cons_false _ _ _ (by decide)
  constructor
  · rw [takeWhile_append_of_all _ ds _ hds, htw, List.append_nil]
    cases ds with
    | nil => exact absurd rfl hdsne
    | cons d ds' => rfl
  · rw [dropWhile_append_of_all _ ds _ hds, hdw]
    rcases hfr with rfl | ⟨fs, rfl, hfsne, hfs⟩
    · cases w2 with
      | nil => rfl
      | cons c r =>
        have hc := hw2 c (List.mem_cons_self c r)
        have hcd : ¬c = '.' := fun he => by
          rw [he] at hc
          exact absurd hc (by decide)
        show fracOrEnd (c :: r) = true
        rw [show fracOrEnd (c :: r) = (c :: r).all isSpaceChar from by
          simp [fracOrEnd, hcd]]
        exact List.all_eq_true.mpr (fun x hx => hw2 x hx)
    · show fracOrEnd ('.' :: (fs ++ w2)) = true
      rw [show fracOrEnd ('.' :: (fs ++ w2)) =
          (!((fs ++ w2).takeWhile isDigitChar).isEmpty &&
            ((fs ++ w2).dropWhile isDigitChar).all isSpaceChar) from by
        simp [fracOrEnd], Bool.and_eq_true]
      constructor
      · rw [takeWhile_append_of_all _ fs _ hfs,
          takeWhile_digit_of_space w2 hw2, List.append_nil]
        cases fs with
        | nil => exact absurd rfl hfsne
        | cons f fs' => rfl
      · rw [dropWhile_append_of_all _ fs _ hfs, dropWhile_digit_of_space w2 hw2]
        exact List.all_eq_true.mpr (fun x hx => hw2 x hx)

/-- C9: `Blockly.isNumber` returns true exactly for the strings consisting
of optional leading whitespace, an optional minus sign, one or more digits,
an optional fractional part (a dot followed by one or more digits), and
optional trailing whitespace. A leading plus sign, a leading dot, a
trailing dot, and exponent notation all fall outside this language, so
those strings are rejected. -/
theorem C9_isNumber_characterisation (s : List Char) :
    isNumber s = true ↔ NumberSpec s := by
  constructor
  · intro h
    simp only [isNumber] at h
    rw [Bool.and_eq_true] at h
    obtain ⟨hds, hfrac⟩ := h
    have hs1 : s = s.takeWhile isSpaceChar ++ s.dropWhile isSpaceChar :=
      (List.takeWhile_append_dropWhile _ _).symm
    have hw1 : ∀ c ∈ s.takeWhile isSpaceChar, isSpaceChar c = true :=
      fun c hc => List.mem_takeWhile_imp hc
    cases ht1 : s.dropWhile isSpaceChar with
    | nil =>
      rw [ht1] at hds
      simp [stripMinus] at hds
    | cons a r =>
      rw [ht1] at hds hfrac
      by_cases ha : a = '-'
      · subst ha
        rw [show stripMinus ('-' :: r) = r from by simp [stripMinus]]
          at hds hfrac
        obtain ⟨ds, fr, w2, hteq, hdsne2, hdig, hfr, hw2⟩ :=
          isNumber_tail_spec r hds hfrac
        refine ⟨s.takeWhile isSpaceChar, ['-'], ds, fr, w2, ?_, hw1,
          Or.inr rfl, hdsne2, hdig, hfr, hw2⟩
        conv_lhs => rw [hs1]
        rw [ht1, hteq]
        simp
      · rw [show stripMinus (a :: r) = a :: r from by simp [stripMinus, ha]]
          at hds hfrac
        obtain ⟨ds, fr, w2, hteq, hdsne2, hdig, hfr, hw2⟩ :=
          isNumber_tail_spec (a :: r) hds hfrac
        refine ⟨s.takeWhile isSpaceChar, [], ds, fr, w2, ?_, hw1,
          Or.inl rfl, hdsne2, hdig, hfr, hw2⟩
        conv_lhs => rw [hs1]
        rw [ht1, hteq]
        simp
  · rintro ⟨w1, sign, ds, fr, w2, rfl, hw1, hsign, hdsne, hds, hfr, hw2⟩
    have hassoc : w1 ++ sign ++ ds ++ fr ++ w2
        = w1 ++ (sign ++ (ds ++ (fr ++ w2))) := by simp
    simp only [isNumber]
    rw [hassoc, dropWhile_append_of_all _ w1 _ hw1]
    cases ds with
    | nil => exact absurd rfl hdsne
    | cons d ds' =>
      have hd : isDigitChar d = true := hds d (List.mem_cons_self _ _)
      have hdns : isSpaceChar d = false := digit_not_space hd
      have hdnm : ¬d = '-' := fun he => by
        rw [he] at hd
        exact absurd hd (by decide)
      rcases hsign with rfl | rfl
      · rw [show ([] : List Char) ++ ((d :: ds') ++ (fr ++ w2))
            = d :: (ds' ++ (fr ++ w2)) from by simp]
        rw [dropWhile_cons_false _ _ _ hdns]
        rw [show stripMinus (d :: (ds' ++ (fr ++ w2)))
            = d :: (ds' ++ (fr ++ w2)) from by simp [stripMinus, hdnm]]
        rw [Bool.and_eq_true]
        have hc := isNumber_tail_complete (d :: ds') fr w2 (by simp) hds hfr hw2
        exact ⟨hc.1, hc.2⟩
      · rw [show (['-'] : List Char) ++ ((d :: ds') ++ (fr ++ w2))
            = '-' :: ((d :: ds') ++ (fr ++ w2)) from by simp]
        rw [dropWhile_cons_false _ _ _ (by decide)]
        rw [show stripMinus ('-' :: ((d :: ds') ++ (fr ++ w2)))
            = (d :: ds') ++ (fr ++ w2) from by simp [stripMinus]]
        rw [Bool.and_eq_true]
        have hc := isNumber_tail_complete (d :: ds') fr w2 (by simp) hds hfr hw2
        exact ⟨hc.1, hc.2⟩

end Mixly
